import Mathlib

/-
  Verification of the Workerify request-routing core.

  Shallow embedding of:
  - the route table and its matching algorithm (matchRoute / findRoute),
  - the request dispatcher pipeline (handleRequest / handleMessage) with
    lifecycle hooks and the outer error boundary,
  - the registration path processing (processPath) and, modelled from the
    spec where the sources only ship tests/types for it, the scope /
    plugin-prefix composition of the Consumer Session,
  - the Interception Point's liveness sweep (cleanupClosedClients).

  JavaScript builtins that the code calls (URL parsing, decodeURIComponent,
  TextDecoder/URLSearchParams form decoding) are external to the repository
  and are modelled as explicit function parameters of the embedding; theorems
  quantify over them, adding only properties that the real builtins satisfy.

  Mutable JS objects are modelled by explicit state passing; `undefined`
  fields by Option; thrown exceptions by Except with the error collapsed to
  its message string (the dispatcher never inspects more of it).
-/

/-- HTTP methods are carried as strings (the union type `HttpMethod` of
`types.ts` erases to plain strings at runtime). -/
abbrev HttpMethod := String

/-- Match mode of a route: `'exact' | 'prefix'` in `types.ts`.
`pfx` stands for the string `'prefix'`. -/
inductive MatchMode where
  | exact
  | pfx
deriving DecidableEq, Repr

/-- Bodies (`WorkerifyBody = ArrayBuffer | string | null | object` in
`types.ts`).  `obj` models a structured (JSON) value; string-valued fields
suffice for every body the router itself constructs. -/
inductive WorkerifyBody where
  | str (s : String)
  | buf (bytes : List Nat)
  | obj (fields : List (String × String))
  | nullV
deriving DecidableEq, Repr

/-- `BodyType = 'json' | 'text' | 'arrayBuffer'`. -/
inductive BodyType where
  | json
  | text
  | arrayBuffer
deriving DecidableEq, Repr

/-- Request body: raw bytes (`ArrayBuffer`) or, after the form-decode step
of `handleRequest`, a parsed string map. -/
inductive ReqBody where
  | buf (bytes : List Nat)
  | form (fields : List (String × String))
deriving DecidableEq, Repr

/-- `WorkerifyRequest` of `types.ts`; `query` is added dynamically by the
dispatcher (line 105 of the class). -/
structure WorkerifyRequest where
  url : String
  method : HttpMethod
  headers : List (String × String)
  body : Option ReqBody
  params : List (String × String)
  query : List (String × String)
deriving DecidableEq, Repr

/-- `WorkerifyReply` of `types.ts`: every field optional (`undefined` = none). -/
structure WorkerifyReply where
  status : Option Nat
  statusText : Option String
  headers : Option (List (String × String))
  body : Option WorkerifyBody
  bodyType : Option BodyType
deriving DecidableEq, Repr

/-- A route handler: may mutate the reply and return a value
(`undefined` = none) or throw (modelled by `Except.error message`). -/
abbrev RouteHandler :=
  WorkerifyRequest → WorkerifyReply → Except String (WorkerifyReply × Option WorkerifyBody)

/-- An `onRequest`/`preHandler`/`onResponse` hook: may mutate request and
reply, or throw. -/
abbrev HookHandler :=
  WorkerifyRequest → WorkerifyReply → Except String (WorkerifyRequest × WorkerifyReply)

/-- An `onError` hook: receives the error plus request and reply. -/
abbrev OnErrorHook :=
  String → WorkerifyRequest → WorkerifyReply → Except String (WorkerifyRequest × WorkerifyReply)

/-- `Route` of `types.ts`.  `matchMode` embeds the source field `match`
(a Lean keyword). -/
structure Route where
  method : Option HttpMethod
  path : String
  handler : RouteHandler
  matchMode : Option MatchMode

/-
  JS string primitives, modelled on the character lists underlying Lean
  strings (so that they evaluate inside the kernel): `includes` of a single
  character, `startsWith`, `endsWith`, `slice`, and `split` on `'/'`.
-/

/-- JS `s.includes(c)` for a single character `c`. -/
def strContains (s : String) (c : Char) : Bool :=
  s.data.any (fun a => a == c)

/-- JS `s.startsWith(pre)`. -/
def strStartsWith (s pre : String) : Bool :=
  pre.data.isPrefixOf s.data

/-- JS `s.endsWith(suf)`. -/
def strEndsWith (s suf : String) : Bool :=
  suf.data.isSuffixOf s.data

/-- JS `s.slice(n)`: drop the first `n` characters. -/
def strDrop (s : String) (n : Nat) : String :=
  ⟨s.data.drop n⟩

/-- JS `s.slice(0, -n)`: drop the last `n` characters. -/
def strDropRight (s : String) (n : Nat) : String :=
  ⟨s.data.take (s.data.length - n)⟩

/-- Split a character list on a separator character, JS
`String.prototype.split` style: `"".split` gives `[""]`, separators at the
edges give empty groups. -/
def splitOnChar (c : Char) : List Char → List (List Char)
  | [] => [[]]
  | a :: rest =>
    let r := splitOnChar c rest
    if a = c then [] :: r
    else
      match r with
      | [] => [[a]]
      | g :: gs => (a :: g) :: gs

/-- JS `s.split('/')`. -/
def strSplitSlash (s : String) : List String :=
  (splitOnChar '/' s.data).map String.mk

/-- JS object assignment `params[k] = v` on a string-keyed record:
overwrite the key if present, otherwise append. -/
def objSet (m : List (String × String)) (k v : String) : List (String × String) :=
  if m.any (fun p => p.1 == k) then
    m.map (fun p => if p.1 = k then (k, v) else p)
  else
    m ++ [(k, v)]

/-- Segment walk of `matchRoute` (lines 242-257): route segments starting
with `:` capture the decoded path segment when both the parameter name and
the raw path segment are non-empty; literal segments must be equal.
`decode` stands for the JS builtin `decodeURIComponent`. -/
def matchSegs (decode : String → String) :
    List String → List String → List (String × String) → Option (List (String × String))
  | [], [], acc => some acc
  | r :: rs, p :: ps, acc =>
    if strStartsWith r ":" then
      matchSegs decode rs ps
        (if strDrop r 1 ≠ "" ∧ p ≠ "" then objSet acc (strDrop r 1) (decode p) else acc)
    else if r = p then
      matchSegs decode rs ps acc
    else
      none
  | _, _, _ => none

/-- `Workerify.matchRoute` (lines 222-260): a route path without `:` matches
by string equality; otherwise split both paths on `/`, require equal segment
counts, and walk the segments. `none` = `{match:false}`; `some params` =
`{match:true, params}` (the undefined-params case of a no-parameter match is
collapsed to `[]`, which is indistinguishable downstream, where
`params || {}` is used). -/
def matchRoute (decode : String → String) (routePath pathname : String) :
    Option (List (String × String)) :=
  if strContains routePath ':' = false then
    (if routePath = pathname then some [] else none)
  else if (strSplitSlash routePath).length ≠ (strSplitSlash pathname).length then
    none
  else
    matchSegs decode (strSplitSlash routePath) (strSplitSlash pathname) []

/-- The method skip of `findRoute` (line 272):
`route.method && route.method !== method`. -/
def methodSkip (routeMethod : Option HttpMethod) (method : HttpMethod) : Bool :=
  match routeMethod with
  | some m => m != method
  | none => false

/-- The loop of `Workerify.findRoute` (lines 270-289) over the already
parsed and decoded pathname: first route whose method and path match wins;
prefix routes match by `String.startsWith` with empty params. -/
def findRouteLoop (decode : String → String) (routes : List Route)
    (method : HttpMethod) (pathname : String) :
    Option (Route × List (String × String)) :=
  match routes with
  | [] => none
  | r :: rest =>
    if methodSkip r.method method then
      findRouteLoop decode rest method pathname
    else
      match r.matchMode.getD MatchMode.exact with
      | MatchMode.pfx =>
        if strStartsWith pathname r.path then some (r, [])
        else findRouteLoop decode rest method pathname
      | MatchMode.exact =>
        match matchRoute decode r.path pathname with
        | some ps => some (r, ps)
        | none => findRouteLoop decode rest method pathname

/-- `Workerify.findRoute` (lines 262-292).  `rawPathname` is the pathname of
the parsed URL (`new URL(url).pathname`, a JS builtin hoisted to the caller);
the source decodes it with `decodeURIComponent` before matching. -/
def findRoute (decode : String → String) (routes : List Route)
    (method : HttpMethod) (rawPathname : String) :
    Option (Route × List (String × String)) :=
  findRouteLoop decode routes method (decode rawPathname)

/-- `Workerify.processPath` (lines 327-340): a path ending in `/*` is
rewritten to prefix matching on the path with the `*` dropped (the trailing
`/` is kept). -/
def processPath (path : String) : String × MatchMode :=
  if strEndsWith path "/*" then
    (strDropRight path 1, MatchMode.pfx)
  else
    (path, MatchMode.exact)

/-- Spec-side predicate (for the refinement claim about `findRoute`):
"first route in registration order whose method and path match".  A route
matches when its method is absent or equal to the request method, and its
path matches in its match mode. -/
def routeMatchesSpec (decode : String → String) (method pathname : String)
    (r : Route) : Bool :=
  (!methodSkip r.method method) &&
    (match r.matchMode.getD MatchMode.exact with
     | MatchMode.pfx => strStartsWith pathname r.path
     | MatchMode.exact => (matchRoute decode r.path pathname).isSome)

/-- Spec-side params of a matching route: empty for a prefix match,
the captured params for an exact match. -/
def routeParamsSpec (decode : String → String) (pathname : String)
    (r : Route) : List (String × String) :=
  match r.matchMode.getD MatchMode.exact with
  | MatchMode.pfx => []
  | MatchMode.exact => (matchRoute decode r.path pathname).getD []

/-- A handler that returns no value; used for concrete scenario routes. -/
def dummyHandler : RouteHandler := fun _ rep => Except.ok (rep, none)

/-- The prefix route of the spec scenario: registered via `get('/api/*')`,
hence stored through `processPath`. -/
def scenarioPrefixRoute : Route :=
  { method := some "GET", path := (processPath "/api/*").1,
    handler := dummyHandler, matchMode := some (processPath "/api/*").2 }

/-- The exact route of the spec scenario: registered via `get('/api/users')`. -/
def scenarioExactRoute : Route :=
  { method := some "GET", path := (processPath "/api/users").1,
    handler := dummyHandler, matchMode := some (processPath "/api/users").2 }

theorem findRouteLoop_eq_find (decode : String → String) (method pathname : String) :
    ∀ routes : List Route,
      findRouteLoop decode routes method pathname =
        (routes.find? (routeMatchesSpec decode method pathname)).map
          (fun r => (r, routeParamsSpec decode pathname r))
  | [] => rfl
  | r :: rest => by
    have ih := findRouteLoop_eq_find decode method pathname rest
    unfold findRouteLoop
    by_cases hskip : methodSkip r.method method
    · have hmatch : routeMatchesSpec decode method pathname r = false := by
        unfold routeMatchesSpec
        simp [hskip]
      simp [hskip, List.find?, hmatch, ih]
    · have hb : methodSkip r.method method = false := by
        simpa using hskip
      cases hmode : r.matchMode.getD MatchMode.exact with
      | pfx =>
        cases hsw : strStartsWith pathname r.path with
        | true =>
          have hmatch : routeMatchesSpec decode method pathname r = true := by
            unfold routeMatchesSpec
            simp [hb, hmode, hsw]
          have hp : routeParamsSpec decode pathname r = [] := by
            unfold routeParamsSpec
            simp [hmode]
          simp [hb, hmode, hsw, List.find?, hmatch, hp]
        | false =>
          have hmatch : routeMatchesSpec decode method pathname r = false := by
            unfold routeMatchesSpec
            simp [hb, hmode, hsw]
          simp [hb, hmode, hsw, List.find?, hmatch, ih]
      | exact =>
        cases hmr : matchRoute decode r.path pathname with
        | some ps =>
          have hmatch : routeMatchesSpec decode method pathname r = true := by
            unfold routeMatchesSpec
            simp [hb, hmode, hmr]
          have hp : routeParamsSpec decode pathname r = ps := by
            unfold routeParamsSpec
            simp [hmode, hmr]
          simp [hb, hmode, hmr, List.find?, hmatch, hp]
        | none =>
          have hmatch : routeMatchesSpec decode method pathname r = false := by
            unfold routeMatchesSpec
            simp [hb, hmode, hmr]
          simp [hb, hmode, hmr, List.find?, hmatch, ih]

/-- C1: for every route table and request, `findRoute` returns the first
route in registration order whose method and path match (formalised as
agreement with `List.find?` over the spec predicate, params included); in
particular, in the spec scenario where the prefix route `GET /api/*` is
registered before the exact route `GET /api/users`, the request
`GET /api/users` matches the prefix route regardless of the later route's
greater specificity. -/
theorem findRoute_first_match_wins :
    (∀ (decode : String → String) (routes : List Route) (method rawPathname : String),
       findRoute decode routes method rawPathname =
         ((routes.find? (routeMatchesSpec decode method (decode rawPathname))).map
           (fun r => (r, routeParamsSpec decode (decode rawPathname) r))))
    ∧ findRoute (fun s => s) [scenarioPrefixRoute, scenarioExactRoute] "GET" "/api/users"
        = some (scenarioPrefixRoute, []) := by
  constructor
  · intro decode routes method rawPathname
    exact findRouteLoop_eq_find decode method (decode rawPathname) routes
  · rfl

/-- C5: for a registered EXACT route with no parameter segments (its stored
path contains no `:`), matching succeeds iff the request path is
byte-identical to the stored path — case-sensitively and
trailing-slash-sensitively, since this is plain string equality. -/
theorem matchRoute_exact_no_params_iff_eq
    (decode : String → String) (routePath pathname : String)
    (h : strContains routePath ':' = false) :
    (matchRoute decode routePath pathname).isSome ↔ routePath = pathname := by
  unfold matchRoute
  rw [h]
  by_cases heq : routePath = pathname <;> simp [heq]

theorem matchRoute_exact_no_params_iff_eq_witness :
    (strContains "/users" ':' = false)
    ∧ (matchRoute (fun s => s) "/users" "/users").isSome
    ∧ ¬ (matchRoute (fun s => s) "/users" "/users/").isSome := by
  refine ⟨by decide, ?_, ?_⟩
  · exact (matchRoute_exact_no_params_iff_eq (fun s => s) "/users" "/users"
      (by decide)).mpr rfl
  · intro hs
    exact absurd ((matchRoute_exact_no_params_iff_eq (fun s => s) "/users" "/users/"
      (by decide)).mp hs) (by decide)

/-
  C4 development: properties of parameterized exact matching.
-/

theorem objSet_mem (m : List (String × String)) (k v : String)
    (kv : String × String) (h : kv ∈ objSet m k v) : kv = (k, v) ∨ kv ∈ m := by
  unfold objSet at h
  by_cases hc : m.any (fun p => p.1 == k) <;> simp [hc] at h
  · rcases h with ⟨a, b, hp, hfp⟩
    by_cases hk : a = k
    · left
      rw [if_pos hk] at hfp
      exact hfp.symm
    · right
      rw [if_neg hk] at hfp
      exact hfp ▸ hp
  · rcases h with h | h
    · right; exact h
    · left; exact h

theorem objSet_key_iff (m : List (String × String)) (k v k' : String) :
    (∃ v', (k', v') ∈ objSet m k v) ↔ k' = k ∨ ∃ v', (k', v') ∈ m := by
  constructor
  · rintro ⟨v', hv⟩
    rcases objSet_mem m k v (k', v') hv with h | h
    · left
      exact congrArg Prod.fst h
    · right
      exact ⟨v', h⟩
  · intro h
    unfold objSet
    by_cases hc : m.any (fun p => p.1 == k)
    · rw [if_pos hc]
      rcases h with h | ⟨v', hv⟩
      · subst h
        rcases List.any_eq_true.mp hc with ⟨p, hp, hpk⟩
        refine ⟨v, List.mem_map.mpr ⟨p, hp, ?_⟩⟩
        rw [if_pos (by simpa using hpk)]
      · by_cases hk : k' = k
        · subst hk
          rcases List.any_eq_true.mp hc with ⟨p, hp, hpk⟩
          refine ⟨v, List.mem_map.mpr ⟨p, hp, ?_⟩⟩
          rw [if_pos (by simpa using hpk)]
        · refine ⟨v', List.mem_map.mpr ⟨(k', v'), hv, ?_⟩⟩
          rw [if_neg hk]
    · rw [if_neg hc]
      rcases h with h | ⟨v', hv⟩
      · subst h
        exact ⟨v, List.mem_append.mpr (Or.inr (by simp))⟩
      · exact ⟨v', List.mem_append.mpr (Or.inl hv)⟩

theorem strStartsWith_colon_data (l : List Char) :
    strStartsWith (String.mk l) ":" = true ↔ ∃ t : List Char, l = ':' :: t := by
  unfold strStartsWith
  have hc : (":" : String).data = [':'] := rfl
  rw [hc]
  cases l with
  | nil => simp [List.isPrefixOf]
  | cons a t =>
    simp only [List.isPrefixOf, List.isPrefixOf_nil_left, Bool.and_true, beq_iff_eq]
    constructor
    · intro h
      exact ⟨t, by rw [h]⟩
    · rintro ⟨t', ht⟩
      exact (List.cons.injEq .. ▸ ht).1.symm

theorem strStartsWith_colon_decomp (r : String) (h : strStartsWith r ":" = true) :
    r = ":" ++ strDrop r 1 := by
  cases r with
  | mk l =>
    rcases (strStartsWith_colon_data l).mp h with ⟨t, ht⟩
    subst ht
    rfl

theorem colon_append_startsWith (name : String) :
    strStartsWith (":" ++ name) ":" = true := by
  cases name with
  | mk l => exact (strStartsWith_colon_data (':' :: l)).mpr ⟨l, rfl⟩

theorem colon_append_inj (a b : String) (h : (":" ++ a) = (":" ++ b)) : a = b := by
  cases a with
  | mk la =>
    cases b with
    | mk lb =>
      have hl : ':' :: la = ':' :: lb := congrArg String.data h
      have : la = lb := by simpa using hl
      rw [this]

theorem colon_append_drop (name : String) : strDrop (":" ++ name) 1 = name := by
  cases name with
  | mk l => rfl

theorem matchSegs_mismatch (decode : String → String) :
    ∀ (rs ps : List String) (acc : List (String × String)) (pr : String × String),
      pr ∈ rs.zip ps → strStartsWith pr.1 ":" = false → pr.1 ≠ pr.2 →
      matchSegs decode rs ps acc = none
  | [], ps, acc, pr => by intro h; simp at h
  | r :: rs, [], acc, pr => by intro h; simp at h
  | r :: rs, p :: ps, acc, pr => by
    intro hmem hsw hne
    rcases List.mem_cons.mp (by simpa using hmem) with h | h
    · subst h
      unfold matchSegs
      rw [if_neg (by simp [hsw]), if_neg hne]
    · unfold matchSegs
      by_cases hr : strStartsWith r ":"
      · rw [if_pos hr]
        exact matchSegs_mismatch decode rs ps _ pr h hsw hne
      · rw [if_neg hr]
        by_cases hrp : r = p
        · rw [if_pos hrp]
          exact matchSegs_mismatch decode rs ps _ pr h hsw hne
        · rw [if_neg hrp]

theorem matchSegs_some (decode : String → String) :
    ∀ (rs ps : List String) (acc res : List (String × String)),
      matchSegs decode rs ps acc = some res →
      ((∀ name, (∃ v, (name, v) ∈ res) ↔ (∃ v, (name, v) ∈ acc) ∨
          ∃ pr ∈ rs.zip ps, pr.1 = ":" ++ name ∧ name ≠ "" ∧ pr.2 ≠ "")
      ∧ (∀ kv, kv ∈ res → kv ∈ acc ∨ ∃ pr ∈ rs.zip ps,
          pr.1 = ":" ++ kv.1 ∧ kv.2 = decode pr.2 ∧ pr.2 ≠ ""))
  | [], [], acc, res => by
    intro h
    unfold matchSegs at h
    have hres : acc = res := by simpa using h
    subst hres
    constructor
    · intro name
      simp
    · intro kv hkv
      exact Or.inl hkv
  | [], p :: ps, acc, res => by
    intro h
    unfold matchSegs at h
    simp at h
  | r :: rs, [], acc, res => by
    intro h
    unfold matchSegs at h
    simp at h
  | r :: rs, p :: ps, acc, res => by
    intro h
    unfold matchSegs at h
    rw [List.zip_cons_cons]
    by_cases hr : strStartsWith r ":"
    · rw [if_pos hr] at h
      have hdec := strStartsWith_colon_decomp r hr
      by_cases hcap : strDrop r 1 ≠ "" ∧ p ≠ ""
      · rw [if_pos hcap] at h
        have ih := matchSegs_some decode rs ps (objSet acc (strDrop r 1) (decode p)) res h
        have hhead : ∀ name : String,
            (r = ":" ++ name ∧ name ≠ "" ∧ p ≠ "") ↔ name = strDrop r 1 := by
          intro name
          constructor
          · rintro ⟨h1, _, _⟩
            exact colon_append_inj name (strDrop r 1) (h1 ▸ hdec)
          · rintro rfl
            exact ⟨hdec, hcap.1, hcap.2⟩
        constructor
        · intro name
          rw [(ih.1 name), objSet_key_iff]
          have hh := hhead name
          simp only [List.mem_cons, exists_eq_or_imp]
          rw [hh, or_assoc]
          exact or_left_comm
        · intro kv hkv
          have hm := ih.2 kv hkv
          rcases hm with hin | htail
          · rcases objSet_mem acc (strDrop r 1) (decode p) kv hin with heq | hacc
            · right
              refine ⟨(r, p), List.mem_cons_self _ _, ?_, ?_, hcap.2⟩
              · rw [heq]
                exact hdec
              · rw [heq]
            · exact Or.inl hacc
          · right
            rcases htail with ⟨pr, hpr, hc⟩
            exact ⟨pr, List.mem_cons_of_mem _ hpr, hc⟩
      · rw [if_neg hcap] at h
        have ih := matchSegs_some decode rs ps acc res h
        have hhead : ∀ name : String, ¬ (r = ":" ++ name ∧ name ≠ "" ∧ p ≠ "") := by
          rintro name ⟨h1, h2, h3⟩
          have hn : name = strDrop r 1 := colon_append_inj name (strDrop r 1) (h1 ▸ hdec)
          exact hcap ⟨hn ▸ h2, h3⟩
        constructor
        · intro name
          rw [ih.1 name]
          have hh := hhead name
          simp only [List.mem_cons, exists_eq_or_imp]
          constructor
          · rintro (h1 | h2)
            · exact Or.inl h1
            · exact Or.inr (Or.inr h2)
          · rintro (h1 | h2 | h3)
            · exact Or.inl h1
            · exact absurd h2 hh
            · exact Or.inr h3
        · intro kv hkv
          have hm := ih.2 kv hkv
          rcases hm with hacc | htail
          · exact Or.inl hacc
          · right
            rcases htail with ⟨pr, hpr, hc⟩
            exact ⟨pr, List.mem_cons_of_mem _ hpr, hc⟩
    · rw [if_neg hr] at h
      by_cases hrp : r = p
      · rw [if_pos hrp] at h
        have ih := matchSegs_some decode rs ps acc res h
        have hhead : ∀ name : String, r ≠ ":" ++ name := by
          intro name hcon
          rw [hcon] at hr
          exact hr (colon_append_startsWith name)
        constructor
        · intro name
          rw [ih.1 name]
          have hh := hhead name
          simp only [List.mem_cons, exists_eq_or_imp]
          constructor
          · rintro (h1 | h2)
            · exact Or.inl h1
            · exact Or.inr (Or.inr h2)
          · rintro (h1 | h2 | h3)
            · exact Or.inl h1
            · exact absurd h2.1 hh
            · exact Or.inr h3
        · intro kv hkv
          have hm := ih.2 kv hkv
          rcases hm with hacc | htail
          · exact Or.inl hacc
          · right
            rcases htail with ⟨pr, hpr, hc⟩
            refine ⟨pr, List.mem_cons_of_mem _ hpr, hc⟩
      · rw [if_neg hrp] at h
        exact absurd h (by simp)

/-- C4: for an EXACT route whose path contains parameter segments
(`routePath.includes(':')`), matching fails whenever the two paths have
different `/`-segment counts, and whenever any literal (non-`:`) route
segment differs from the corresponding path segment; on success, the params
map holds exactly the names of `:`-prefixed route segments (with non-empty
parameter name) whose corresponding path segment decodes to a non-empty
string, each bound to the URL-decoded corresponding path segment — a capture
whose decoded value is the empty string is omitted.  `decode` is the JS
builtin `decodeURIComponent`, assumed (as the builtin does) to map a string
to the empty string only if it is empty. -/
theorem matchRoute_param_capture
    (decode : String → String) (hdecode : ∀ s : String, decode s = "" ↔ s = "")
    (routePath pathname : String) (hparam : strContains routePath ':' = true) :
    ((strSplitSlash routePath).length ≠ (strSplitSlash pathname).length →
        matchRoute decode routePath pathname = none)
    ∧ (∀ pr ∈ (strSplitSlash routePath).zip (strSplitSlash pathname),
         strStartsWith pr.1 ":" = false → pr.1 ≠ pr.2 →
         matchRoute decode routePath pathname = none)
    ∧ (∀ ps, matchRoute decode routePath pathname = some ps →
        (∀ name, (∃ v, (name, v) ∈ ps) ↔
          ∃ pr ∈ (strSplitSlash routePath).zip (strSplitSlash pathname),
            pr.1 = ":" ++ name ∧ name ≠ "" ∧ decode pr.2 ≠ "")
        ∧ (∀ kv, kv ∈ ps →
            ∃ pr ∈ (strSplitSlash routePath).zip (strSplitSlash pathname),
              pr.1 = ":" ++ kv.1 ∧ kv.2 = decode pr.2 ∧ decode pr.2 ≠ "")) := by
  have hc : ¬ (strContains routePath ':' = false) := by simp [hparam]
  have hconv : ∀ s : String, (s ≠ "") ↔ (decode s ≠ "") := by
    intro s
    exact (not_congr (hdecode s)).symm
  refine ⟨?_, ?_, ?_⟩
  · intro hlen
    unfold matchRoute
    rw [if_neg hc, if_pos hlen]
  · intro pr hpr hsw hne
    unfold matchRoute
    rw [if_neg hc]
    by_cases hlen : (strSplitSlash routePath).length ≠ (strSplitSlash pathname).length
    · rw [if_pos hlen]
    · rw [if_neg hlen]
      exact matchSegs_mismatch decode _ _ [] pr hpr hsw hne
  · intro ps hps
    unfold matchRoute at hps
    rw [if_neg hc] at hps
    by_cases hlen : (strSplitSlash routePath).length ≠ (strSplitSlash pathname).length
    · rw [if_pos hlen] at hps
      exact absurd hps (by simp)
    · rw [if_neg hlen] at hps
      have hms := matchSegs_some decode (strSplitSlash routePath) (strSplitSlash pathname) [] ps hps
      constructor
      · intro name
        rw [hms.1 name]
        simp only [List.not_mem_nil, exists_const, false_or]
        constructor
        · rintro ⟨pr, hpr, h1, h2, h3⟩
          exact ⟨pr, hpr, h1, h2, (hconv pr.2).mp h3⟩
        · rintro ⟨pr, hpr, h1, h2, h3⟩
          exact ⟨pr, hpr, h1, h2, (hconv pr.2).mpr h3⟩
      · intro kv hkv
        rcases hms.2 kv hkv with hnil | ⟨pr, hpr, h1, h2, h3⟩
        · exact absurd hnil (List.not_mem_nil kv)
        · exact ⟨pr, hpr, h1, h2, (hconv pr.2).mp h3⟩

theorem matchRoute_param_capture_witness :
    matchRoute (fun s => s) "/users/:id" "/users/1/2" = none
    ∧ matchRoute (fun s => s) "/users/:id" "/teams/42" = none
    ∧ (∃ v, ("id", v) ∈ (matchRoute (fun s => s) "/users/:id" "/users/42").getD []) := by
  have hid : ∀ s : String, (fun s => s) s = "" ↔ s = "" := fun s => Iff.rfl
  have h1 := (matchRoute_param_capture (fun s => s) hid "/users/:id" "/users/1/2"
      (by decide)).1 (by decide)
  have h2 := (matchRoute_param_capture (fun s => s) hid "/users/:id" "/teams/42"
      (by decide)).2.1 ("users", "teams") (by decide) (by decide) (by decide)
  have h3 := ((matchRoute_param_capture (fun s => s) hid "/users/:id" "/users/42"
      (by decide)).2.2 [("id", "42")] rfl).1 "id"
  refine ⟨h1, h2, ?_⟩
  have he : matchRoute (fun s => s) "/users/:id" "/users/42" = some [("id", "42")] := rfl
  rw [he]
  exact h3.mpr ⟨(":id", "42"), by decide, by decide, by decide, by decide⟩

/-
  Request dispatcher embedding (`handleMessage` / `handleRequest` /
  `sendResponse`, lines 44-220, and the hook executors, lines 575-628).

  The dispatcher is modelled as a function from an incoming message to the
  trace of its observable behaviour: the lifecycle callbacks it invokes (in
  order) and the broadcast messages it posts.
-/

/-- JS `s.includes(sub)` for a substring. -/
def strIncludesStr (s sub : String) : Bool :=
  s.data.tails.any (fun t => sub.data.isPrefixOf t)

/-- JS object read `m[k]` (last assignment wins is irrelevant here: these
maps are built with `objSet`, which keeps keys unique). -/
def objGet (m : List (String × String)) (k : String) : Option String :=
  (m.find? (fun p => p.1 == k)).map (fun p => p.2)

/-- JS object spread `{...base, ...over}`: entries of `over` assigned over
`base` in order. -/
def objSpread (base over : List (String × String)) : List (String × String) :=
  over.foldl (fun m kv => objSet m kv.1 kv.2) base

/-- The `Workerify` instance state relevant to dispatching: consumer
identity, route table, and the per-stage hook lists (`hooks.get(name)`
with a missing entry collapsed to the empty list, which the executors
treat identically). -/
structure Workerify where
  consumerId : String
  routes : List Route
  onRequestHooks : List HookHandler
  preHandlerHooks : List HookHandler
  onResponseHooks : List HookHandler
  onErrorHooks : List OnErrorHook

/-- `BroadcastMessage` of `types.ts` (the fields the dispatcher reads or
writes; the `routes` snapshot field of registration traffic is not part of
dispatching). -/
structure BroadcastMessage where
  type : String
  id : Option String
  consumerId : Option String
  request : Option WorkerifyRequest
  status : Option Nat
  statusText : Option String
  headers : Option (List (String × String))
  body : Option WorkerifyBody
  bodyType : Option BodyType
deriving DecidableEq, Repr

/-- Observable lifecycle events of one dispatch: which hook of which stage
ran (0-based registration index), and whether the route handler was
invoked. -/
inductive Ev where
  | onRequestHook (i : Nat)
  | preHandlerHook (i : Nat)
  | handlerInvoked
  | onResponseHook (i : Nat)
  | onErrorHook (i : Nat)
deriving DecidableEq, Repr

/-- One step of the dispatch trace: a lifecycle event or a posted message. -/
inductive Act where
  | ev (e : Ev)
  | send (m : BroadcastMessage)
deriving DecidableEq, Repr

/-- The messages posted during a trace. -/
def sentOf (trace : List Act) : List BroadcastMessage :=
  trace.filterMap (fun a =>
    match a with
    | Act.send m => some m
    | Act.ev _ => none)

/-- `executeOnRequestHooks` / `executePreHandlerHooks` /
`executeOnResponseHooks` (lines 575-609): await each registered hook in
order; an exception aborts the stage and propagates.  Returns the events of
the hooks that ran (the throwing one included) and the outcome. -/
def runHooks (hooks : List HookHandler) (mk : Nat → Ev) (i : Nat)
    (req : WorkerifyRequest) (rep : WorkerifyReply) :
    List Ev × Except String (WorkerifyRequest × WorkerifyReply) :=
  match hooks with
  | [] => ([], Except.ok (req, rep))
  | h :: rest =>
    match h req rep with
    | Except.error e => ([mk i], Except.error e)
    | Except.ok (req', rep') =>
      (mk i :: (runHooks rest mk (i + 1) req' rep').1,
       (runHooks rest mk (i + 1) req' rep').2)

/-- `executeOnErrorHooks` (lines 611-628): every hook runs; an exception
inside a hook is caught per-handler (logged only) and does not interrupt
the remaining hooks. -/
def runErrorHooks (hooks : List OnErrorHook) (i : Nat) (e : String)
    (req : WorkerifyRequest) (rep : WorkerifyReply) :
    List Ev × WorkerifyRequest × WorkerifyReply :=
  match hooks with
  | [] => ([], req, rep)
  | h :: rest =>
    match h e req rep with
    | Except.error _ =>
      (Ev.onErrorHook i :: (runErrorHooks rest (i + 1) e req rep).1,
       (runErrorHooks rest (i + 1) e req rep).2)
    | Except.ok s' =>
      (Ev.onErrorHook i :: (runErrorHooks rest (i + 1) e s'.1 s'.2).1,
       (runErrorHooks rest (i + 1) e s'.1 s'.2).2)

/-- The default reply of `handleRequest` (lines 59-64). -/
def reply0 : WorkerifyReply :=
  { status := some 200, statusText := some "OK", headers := some [],
    body := none, bodyType := some BodyType.json }

/-- The fixed not-found reply (lines 87-92). -/
def reply404 : WorkerifyReply :=
  { status := some 404, statusText := some "Not Found", headers := none,
    body := some (WorkerifyBody.obj [("error", "Route not found")]),
    bodyType := some BodyType.json }

/-- The fixed internal-error reply (lines 199-204). -/
def reply500 : WorkerifyReply :=
  { status := some 500, statusText := some "Internal Server Error", headers := none,
    body := some (WorkerifyBody.obj [("error", "Internal server error")]),
    bodyType := some BodyType.json }

/-- `sendResponse` (lines 208-220): the posted `workerify:response` message
built from a reply. -/
def mkMsg (id : String) (rep : WorkerifyReply) : BroadcastMessage :=
  { type := "workerify:response", id := some id, consumerId := none,
    request := none, status := rep.status, statusText := rep.statusText,
    headers := rep.headers, body := rep.body, bodyType := rep.bodyType }

/-- Handler-result inference (lines 156-175): a defined handler return value
becomes the body; a string forces `text` and a default `text/html`
Content-Type (existing headers win via spread), a binary buffer forces
`arrayBuffer`, anything else forces `json` and a default `application/json`
Content-Type. -/
def applyHandlerResult (result : Option WorkerifyBody) (rep : WorkerifyReply) :
    WorkerifyReply :=
  match result with
  | none => rep
  | some b =>
    match b with
    | WorkerifyBody.str s =>
      { rep with body := some (WorkerifyBody.str s),
                 bodyType := some BodyType.text,
                 headers := some (objSpread [("Content-Type", "text/html")]
                   (rep.headers.getD [])) }
    | WorkerifyBody.buf bs =>
      { rep with body := some (WorkerifyBody.buf bs),
                 bodyType := some BodyType.arrayBuffer }
    | b' =>
      { rep with body := some b',
                 bodyType := some BodyType.json,
                 headers := some (objSpread [("Content-Type", "application/json")]
                   (rep.headers.getD [])) }

/-- The guard of the form-decode step (lines 108-117): POST method,
form-urlencoded content type, and a binary body. -/
def formEligible (req : WorkerifyRequest) : Bool :=
  (req.method == "POST")
  && (match objGet req.headers "content-type" with
      | some ct => strIncludesStr ct "application/x-www-form-urlencoded"
      | none => false)
  && (match req.body with
      | some (ReqBody.buf _) => true
      | _ => false)

/-- The form-decode step (lines 107-135): best effort; a decode failure is
swallowed and the original body kept.  `parseForm` stands for the JS
builtins `TextDecoder` + `URLSearchParams` (failure = `none`). -/
def formStep (parseForm : List Nat → Option (List (String × String)))
    (req : WorkerifyRequest) : WorkerifyRequest :=
  if formEligible req then
    match req.body with
    | some (ReqBody.buf bs) =>
      match parseForm bs with
      | some fields => { req with body := some (ReqBody.form fields) }
      | none => req
    | _ => req
  else req

/-- Result of the JS builtin `new URL(url)`: the (still URL-encoded)
pathname and the decoded query pairs of `searchParams`. `none` models the
builtin throwing on a malformed URL. -/
structure UrlParts where
  pathname : String
  query : List (String × String)
deriving DecidableEq, Repr

/-- The catch block of `handleRequest` (lines 187-205): run every `onError`
hook, then unconditionally post the fixed 500 reply — mutations the hooks
made to the reply are not consulted. -/
def errorTail (w : Workerify) (id : String) (e : String)
    (req : WorkerifyRequest) (rep : WorkerifyReply) : List Act :=
  ((runErrorHooks w.onErrorHooks 0 e req rep).1.map Act.ev)
    ++ [Act.send (mkMsg id reply500)]

/-- `handleRequest` (lines 58-206) as a trace function.  `parseUrl` models
`new URL`; `decode` models `decodeURIComponent`; `parseForm` the form
decoding.  A `parseUrl` failure is the `new URL(url)` throw inside
`findRoute`, routed to the catch block. -/
def handleRequest (parseUrl : String → Option UrlParts)
    (decode : String → String)
    (parseForm : List Nat → Option (List (String × String)))
    (w : Workerify) (id : String) (request : WorkerifyRequest) : List Act :=
  match runHooks w.onRequestHooks Ev.onRequestHook 0 request reply0 with
  | (evs1, Except.error e) =>
    (evs1.map Act.ev) ++ errorTail w id e request reply0
  | (evs1, Except.ok (req1, rep1)) =>
    if rep1.body.isSome then
      match runHooks w.onResponseHooks Ev.onResponseHook 0 req1 rep1 with
      | (evs2, Except.error e) =>
        ((evs1 ++ evs2).map Act.ev) ++ errorTail w id e req1 rep1
      | (evs2, Except.ok (_, rep2)) =>
        ((evs1 ++ evs2).map Act.ev) ++ [Act.send (mkMsg id rep2)]
    else
      match parseUrl req1.url with
      | none => (evs1.map Act.ev) ++ errorTail w id "Invalid URL" req1 rep1
      | some parts =>
        match findRoute decode w.routes req1.method parts.pathname with
        | none => (evs1.map Act.ev) ++ [Act.send (mkMsg id reply404)]
        | some (route, params) =>
          match runHooks w.preHandlerHooks Ev.preHandlerHook 0
              (formStep parseForm { req1 with params := params, query := parts.query })
              rep1 with
          | (evs2, Except.error e) =>
            ((evs1 ++ evs2).map Act.ev) ++ errorTail w id e
              (formStep parseForm { req1 with params := params, query := parts.query }) rep1
          | (evs2, Except.ok (req3, rep3)) =>
            if rep3.body.isSome then
              match runHooks w.onResponseHooks Ev.onResponseHook 0 req3 rep3 with
              | (evs3, Except.error e) =>
                ((evs1 ++ evs2 ++ evs3).map Act.ev) ++ errorTail w id e req3 rep3
              | (evs3, Except.ok (_, rep4)) =>
                ((evs1 ++ evs2 ++ evs3).map Act.ev) ++ [Act.send (mkMsg id rep4)]
            else
              match route.handler req3 rep3 with
              | Except.error e =>
                ((evs1 ++ evs2).map Act.ev ++ [Act.ev Ev.handlerInvoked])
                  ++ errorTail w id e req3 rep3
              | Except.ok (rep4, result) =>
                match runHooks w.onResponseHooks Ev.onResponseHook 0 req3
                    (applyHandlerResult result rep4) with
                | (evs3, Except.error e) =>
                  ((evs1 ++ evs2).map Act.ev ++ [Act.ev Ev.handlerInvoked]
                    ++ evs3.map Act.ev) ++ errorTail w id e req3
                      (applyHandlerResult result rep4)
                | (evs3, Except.ok (_, rep5)) =>
                  ((evs1 ++ evs2).map Act.ev ++ [Act.ev Ev.handlerInvoked]
                    ++ evs3.map Act.ev) ++ [Act.send (mkMsg id rep5)]

/-- `handleMessage` (lines 44-56): only a `workerify:handle` message with a
truthy `id`, a `request`, and this instance's `consumerId` is dispatched;
everything else is ignored (empty trace). -/
def handleMessage (parseUrl : String → Option UrlParts)
    (decode : String → String)
    (parseForm : List Nat → Option (List (String × String)))
    (w : Workerify) (msg : BroadcastMessage) : List Act :=
  match msg.id, msg.request with
  | some i, some req =>
    if msg.type == "workerify:handle" && i != "" && (msg.consumerId == some w.consumerId) then
      handleRequest parseUrl decode parseForm w i req
    else []
  | _, _ => []

theorem range_map_shift (mk : Nat → Ev) (n i : Nat) :
    (List.range (n + 1)).map (fun j => mk (i + j)) =
      mk i :: (List.range n).map (fun j => mk (i + 1 + j)) := by
  rw [List.range_succ_eq_map]
  simp only [List.map_cons, List.map_map, Nat.add_zero, List.cons.injEq]
  refine ⟨by trivial, ?_⟩
  apply List.map_congr_left
  intro j _
  simp only [Function.comp_apply]
  congr 1
  omega

theorem runHooks_ok_events (hooks : List HookHandler) (mk : Nat → Ev) :
    ∀ (i : Nat) req rep evs s,
      runHooks hooks mk i req rep = (evs, Except.ok s) →
      evs = (List.range hooks.length).map (fun j => mk (i + j)) := by
  induction hooks with
  | nil =>
    intro i req rep evs s h
    unfold runHooks at h
    injection h with h1 h2
    rw [← h1]
    rfl
  | cons hk rest ih =>
    intro i req rep evs s h
    unfold runHooks at h
    cases hh : hk req rep with
    | error e =>
      rw [hh] at h
      injection h with h1 h2
      cases h2
    | ok s' =>
      rw [hh] at h
      obtain ⟨req', rep'⟩ := s'
      injection h with h1 h2
      have h3 := ih (i + 1) req' rep'
        (runHooks rest mk (i + 1) req' rep').1 s
        (by rw [← h2])
      rw [← h1, h3, List.length_cons, range_map_shift]

theorem runHooks_events_shape (hooks : List HookHandler) (mk : Nat → Ev) :
    ∀ (i : Nat) req rep, ∀ a ∈ (runHooks hooks mk i req rep).1, ∃ j, a = mk j := by
  induction hooks with
  | nil =>
    intro i req rep a ha
    unfold runHooks at ha
    simp at ha
  | cons hk rest ih =>
    intro i req rep a ha
    unfold runHooks at ha
    cases hh : hk req rep with
    | error e =>
      rw [hh] at ha
      simp at ha
      exact ⟨i, ha⟩
    | ok s' =>
      rw [hh] at ha
      obtain ⟨req', rep'⟩ := s'
      simp at ha
      rcases ha with ha | ha
      · exact ⟨i, ha⟩
      · exact ih (i + 1) req' rep' a ha

theorem runErrorHooks_events (hooks : List OnErrorHook) :
    ∀ (i : Nat) (e : String) req rep,
      (runErrorHooks hooks i e req rep).1 =
        (List.range hooks.length).map (fun j => Ev.onErrorHook (i + j)) := by
  induction hooks with
  | nil =>
    intro i e req rep
    rfl
  | cons hk rest ih =>
    intro i e req rep
    unfold runErrorHooks
    cases hh : hk e req rep with
    | error e' =>
      simp only [List.length_cons, range_map_shift]
      rw [ih]
    | ok s' =>
      simp only [List.length_cons, range_map_shift]
      rw [ih]

theorem sentOf_append (a b : List Act) : sentOf (a ++ b) = sentOf a ++ sentOf b := by
  unfold sentOf
  exact List.filterMap_append a b _

theorem sentOf_ev_map (l : List Ev) : sentOf (l.map Act.ev) = [] := by
  unfold sentOf
  induction l with
  | nil => rfl
  | cons e rest ih => simp [ih]

theorem sentOf_send (m : BroadcastMessage) : sentOf [Act.send m] = [m] := rfl

theorem sentOf_ev_single (e : Ev) : sentOf [Act.ev e] = [] := rfl

theorem sentOf_cons_ev (e : Ev) (l : List Act) : sentOf (Act.ev e :: l) = sentOf l := rfl

theorem sentOf_errorTail (w : Workerify) (id e : String)
    (req : WorkerifyRequest) (rep : WorkerifyReply) :
    sentOf (errorTail w id e req rep) = [mkMsg id reply500] := by
  unfold errorTail
  rw [sentOf_append, sentOf_ev_map, sentOf_send]
  rfl

/-- C6: a dispatched request whose path matches no registered route — after
an onRequest stage that completed without producing an early response — gets
exactly one posted reply, the structured 404 `{error:'Route not found'}`;
no `onResponse` and no `onError` hook runs for it (and in particular the
no-match outcome is not reported through the error path). -/
theorem handleRequest_not_found_404
    (parseUrl : String → Option UrlParts) (decode : String → String)
    (parseForm : List Nat → Option (List (String × String)))
    (w : Workerify) (id : String) (request : WorkerifyRequest)
    (evs1 : List Ev) (req1 : WorkerifyRequest) (rep1 : WorkerifyReply)
    (parts : UrlParts)
    (h1 : runHooks w.onRequestHooks Ev.onRequestHook 0 request reply0
      = (evs1, Except.ok (req1, rep1)))
    (h2 : rep1.body = none)
    (h3 : parseUrl req1.url = some parts)
    (h4 : findRoute decode w.routes req1.method parts.pathname = none) :
    handleRequest parseUrl decode parseForm w id request
      = (evs1.map Act.ev) ++ [Act.send (mkMsg id reply404)]
    ∧ sentOf (handleRequest parseUrl decode parseForm w id request)
      = [mkMsg id reply404]
    ∧ (∀ i, Act.ev (Ev.onResponseHook i) ∉ handleRequest parseUrl decode parseForm w id request)
    ∧ (∀ i, Act.ev (Ev.onErrorHook i) ∉ handleRequest parseUrl decode parseForm w id request) := by
  have heq : handleRequest parseUrl decode parseForm w id request
      = (evs1.map Act.ev) ++ [Act.send (mkMsg id reply404)] := by
    unfold handleRequest
    rw [h1]
    simp only [h2, Option.isSome_none, Bool.false_eq_true, if_false, h3, h4]
  have hshape := runHooks_events_shape w.onRequestHooks Ev.onRequestHook 0 request reply0
  rw [h1] at hshape
  refine ⟨heq, ?_, ?_, ?_⟩
  · rw [heq, sentOf_append, sentOf_ev_map, sentOf_send]
    rfl
  · intro i hmem
    rw [heq] at hmem
    rcases List.mem_append.mp hmem with hm | hm
    · rcases List.mem_map.mp hm with ⟨e, he, hee⟩
      rcases hshape e he with ⟨j, hj⟩
      rw [hj] at hee
      exact absurd hee (by simp)
    · simp at hm
  · intro i hmem
    rw [heq] at hmem
    rcases List.mem_append.mp hmem with hm | hm
    · rcases List.mem_map.mp hm with ⟨e, he, hee⟩
      rcases hshape e he with ⟨j, hj⟩
      rw [hj] at hee
      exact absurd hee (by simp)
    · simp at hm

/-- Concrete instantiation: an instance with no routes and no hooks answers
any request with the 404 reply. -/
theorem handleRequest_not_found_404_witness :
    sentOf (handleRequest (fun _ => some ⟨"/missing", []⟩) (fun s => s) (fun _ => none)
        ⟨"c1", [], [], [], [], []⟩ "r1" ⟨"http://app/missing", "GET", [], none, [], []⟩)
      = [mkMsg "r1" reply404] :=
  (handleRequest_not_found_404 (fun _ => some ⟨"/missing", []⟩) (fun s => s) (fun _ => none)
      ⟨"c1", [], [], [], [], []⟩ "r1" ⟨"http://app/missing", "GET", [], none, [], []⟩
      [] ⟨"http://app/missing", "GET", [], none, [], []⟩ reply0 ⟨"/missing", []⟩
      rfl rfl rfl rfl).2.1

/-- C2: when a hook of the onRequest stage (case 1) or of the preHandler
stage (case 2) leaves `reply.body` defined before the route handler runs
(and the stage itself completed without throwing), the handler is never
invoked, the onResponse hooks all still run, and exactly the reply those
hooks finished with is posted. -/
theorem handleRequest_early_response_skips_handler
    (parseUrl : String → Option UrlParts) (decode : String → String)
    (parseForm : List Nat → Option (List (String × String)))
    (w : Workerify) (id : String) (request : WorkerifyRequest) :
    (∀ evs1 req1 rep1 evs2 req2 rep2,
      runHooks w.onRequestHooks Ev.onRequestHook 0 request reply0
          = (evs1, Except.ok (req1, rep1)) →
      rep1.body.isSome = true →
      runHooks w.onResponseHooks Ev.onResponseHook 0 req1 rep1
          = (evs2, Except.ok (req2, rep2)) →
      handleRequest parseUrl decode parseForm w id request
          = ((evs1 ++ evs2).map Act.ev) ++ [Act.send (mkMsg id rep2)]
        ∧ Act.ev Ev.handlerInvoked ∉ handleRequest parseUrl decode parseForm w id request
        ∧ evs2 = (List.range w.onResponseHooks.length).map Ev.onResponseHook)
    ∧ (∀ evs1 req1 rep1 parts route params evs2 req3 rep3 evs3 req4 rep4,
      runHooks w.onRequestHooks Ev.onRequestHook 0 request reply0
          = (evs1, Except.ok (req1, rep1)) →
      rep1.body = none →
      parseUrl req1.url = some parts →
      findRoute decode w.routes req1.method parts.pathname = some (route, params) →
      runHooks w.preHandlerHooks Ev.preHandlerHook 0
          (formStep parseForm { req1 with params := params, query := parts.query }) rep1
          = (evs2, Except.ok (req3, rep3)) →
      rep3.body.isSome = true →
      runHooks w.onResponseHooks Ev.onResponseHook 0 req3 rep3
          = (evs3, Except.ok (req4, rep4)) →
      handleRequest parseUrl decode parseForm w id request
          = ((evs1 ++ evs2 ++ evs3).map Act.ev) ++ [Act.send (mkMsg id rep4)]
        ∧ Act.ev Ev.handlerInvoked ∉ handleRequest parseUrl decode parseForm w id request
        ∧ evs3 = (List.range w.onResponseHooks.length).map Ev.onResponseHook) := by
  constructor
  · intro evs1 req1 rep1 evs2 req2 rep2 h1 hb h2
    have heq : handleRequest parseUrl decode parseForm w id request
        = ((evs1 ++ evs2).map Act.ev) ++ [Act.send (mkMsg id rep2)] := by
      unfold handleRequest
      rw [h1]
      simp only [hb, if_true, h2]
    have hsh1 := runHooks_events_shape w.onRequestHooks Ev.onRequestHook 0 request reply0
    rw [h1] at hsh1
    have hsh2 := runHooks_events_shape w.onResponseHooks Ev.onResponseHook 0 req1 rep1
    rw [h2] at hsh2
    refine ⟨heq, ?_, ?_⟩
    · intro hmem
      rw [heq] at hmem
      rcases List.mem_append.mp hmem with hm | hm
      · rcases List.mem_map.mp hm with ⟨e, he, hee⟩
        rcases List.mem_append.mp he with he' | he'
        · rcases hsh1 e he' with ⟨j, hj⟩
          rw [hj] at hee
          exact absurd hee (by simp)
        · rcases hsh2 e he' with ⟨j, hj⟩
          rw [hj] at hee
          exact absurd hee (by simp)
      · simp at hm
    · have := runHooks_ok_events w.onResponseHooks Ev.onResponseHook 0 req1 rep1
        evs2 (req2, rep2) h2
      simpa using this
  · intro evs1 req1 rep1 parts route params evs2 req3 rep3 evs3 req4 rep4
      h1 hb h3 h4 h5 hb3 h6
    have heq : handleRequest parseUrl decode parseForm w id request
        = ((evs1 ++ evs2 ++ evs3).map Act.ev) ++ [Act.send (mkMsg id rep4)] := by
      unfold handleRequest
      rw [h1]
      simp only [hb, Option.isSome_none, Bool.false_eq_true, if_false, h3, h4, h5, hb3,
        if_true, h6]
    have hsh1 := runHooks_events_shape w.onRequestHooks Ev.onRequestHook 0 request reply0
    rw [h1] at hsh1
    have hsh2 := runHooks_events_shape w.preHandlerHooks Ev.preHandlerHook 0
      (formStep parseForm { req1 with params := params, query := parts.query }) rep1
    rw [h5] at hsh2
    have hsh3 := runHooks_events_shape w.onResponseHooks Ev.onResponseHook 0 req3 rep3
    rw [h6] at hsh3
    refine ⟨heq, ?_, ?_⟩
    · intro hmem
      rw [heq] at hmem
      rcases List.mem_append.mp hmem with hm | hm
      · rcases List.mem_map.mp hm with ⟨e, he, hee⟩
        rcases List.mem_append.mp he with he' | he'
        · rcases List.mem_append.mp he' with he'' | he''
          · rcases hsh1 e he'' with ⟨j, hj⟩
            rw [hj] at hee
            exact absurd hee (by simp)
          · rcases hsh2 e he'' with ⟨j, hj⟩
            rw [hj] at hee
            exact absurd hee (by simp)
        · rcases hsh3 e he' with ⟨j, hj⟩
          rw [hj] at hee
          exact absurd hee (by simp)
      · simp at hm
    · have := runHooks_ok_events w.onResponseHooks Ev.onResponseHook 0 req3 rep3
        evs3 (req4, rep4) h6
      simpa using this

theorem handleRequest_early_response_skips_handler_witness :
    Act.ev Ev.handlerInvoked ∉
      handleRequest (fun _ => some ⟨"/a", []⟩) (fun s => s) (fun _ => none)
        ⟨"c", [],
          [fun req rep => Except.ok (req, { rep with body := some (WorkerifyBody.str "early") })],
          [],
          [fun req rep => Except.ok (req, { rep with status := some 201 })],
          []⟩
        "r1" ⟨"http://a/a", "GET", [], none, [], []⟩ :=
  ((handleRequest_early_response_skips_handler (fun _ => some ⟨"/a", []⟩) (fun s => s)
      (fun _ => none)
      ⟨"c", [],
        [fun req rep => Except.ok (req, { rep with body := some (WorkerifyBody.str "early") })],
        [],
        [fun req rep => Except.ok (req, { rep with status := some 201 })],
        []⟩
      "r1" ⟨"http://a/a", "GET", [], none, [], []⟩).1
    _ _ _ _ _ _ rfl rfl rfl).2.1

/-- C3: whenever a hook stage other than onError (the swallowed form-body
decode cannot throw) or the route handler throws, the dispatcher runs every
registered onError hook — the per-handler catch of `executeOnErrorHooks`
means a throwing onError hook interrupts neither its siblings nor the
response — and then posts exactly one reply: the fixed
`{status:500, body:{error:'Internal server error'}}` of the catch block,
which is built from the `reply500` literal and not from the (possibly
hook-mutated) reply object.  Cases: onRequest throw, onResponse throw after
an onRequest early response, preHandler throw, onResponse throw after a
preHandler early response, handler throw, and onResponse throw after the
handler. -/
theorem handleRequest_error_sends_fixed_500
    (parseUrl : String → Option UrlParts) (decode : String → String)
    (parseForm : List Nat → Option (List (String × String)))
    (w : Workerify) (id : String) (request : WorkerifyRequest) :
    (∀ (e : String) req rep,
      (runErrorHooks w.onErrorHooks 0 e req rep).1
        = (List.range w.onErrorHooks.length).map Ev.onErrorHook)
    ∧ (∀ evs1 e,
      runHooks w.onRequestHooks Ev.onRequestHook 0 request reply0
          = (evs1, Except.error e) →
      handleRequest parseUrl decode parseForm w id request
          = (evs1.map Act.ev) ++ errorTail w id e request reply0
        ∧ sentOf (handleRequest parseUrl decode parseForm w id request)
          = [mkMsg id reply500])
    ∧ (∀ evs1 req1 rep1 evs2 e,
      runHooks w.onRequestHooks Ev.onRequestHook 0 request reply0
          = (evs1, Except.ok (req1, rep1)) →
      rep1.body.isSome = true →
      runHooks w.onResponseHooks Ev.onResponseHook 0 req1 rep1
          = (evs2, Except.error e) →
      handleRequest parseUrl decode parseForm w id request
          = ((evs1 ++ evs2).map Act.ev) ++ errorTail w id e req1 rep1
        ∧ sentOf (handleRequest parseUrl decode parseForm w id request)
          = [mkMsg id reply500])
    ∧ (∀ evs1 req1 rep1 parts route params evs2 e,
      runHooks w.onRequestHooks Ev.onRequestHook 0 request reply0
          = (evs1, Except.ok (req1, rep1)) →
      rep1.body = none →
      parseUrl req1.url = some parts →
      findRoute decode w.routes req1.method parts.pathname = some (route, params) →
      runHooks w.preHandlerHooks Ev.preHandlerHook 0
          (formStep parseForm { req1 with params := params, query := parts.query }) rep1
          = (evs2, Except.error e) →
      handleRequest parseUrl decode parseForm w id request
          = ((evs1 ++ evs2).map Act.ev) ++ errorTail w id e
              (formStep parseForm { req1 with params := params, query := parts.query }) rep1
        ∧ sentOf (handleRequest parseUrl decode parseForm w id request)
          = [mkMsg id reply500])
    ∧ (∀ evs1 req1 rep1 parts route params evs2 req3 rep3 evs3 e,
      runHooks w.onRequestHooks Ev.onRequestHook 0 request reply0
          = (evs1, Except.ok (req1, rep1)) →
      rep1.body = none →
      parseUrl req1.url = some parts →
      findRoute decode w.routes req1.method parts.pathname = some (route, params) →
      runHooks w.preHandlerHooks Ev.preHandlerHook 0
          (formStep parseForm { req1 with params := params, query := parts.query }) rep1
          = (evs2, Except.ok (req3, rep3)) →
      rep3.body.isSome = true →
      runHooks w.onResponseHooks Ev.onResponseHook 0 req3 rep3
          = (evs3, Except.error e) →
      handleRequest parseUrl decode parseForm w id request
          = ((evs1 ++ evs2 ++ evs3).map Act.ev) ++ errorTail w id e req3 rep3
        ∧ sentOf (handleRequest parseUrl decode parseForm w id request)
          = [mkMsg id reply500])
    ∧ (∀ evs1 req1 rep1 parts route params evs2 req3 rep3 e,
      runHooks w.onRequestHooks Ev.onRequestHook 0 request reply0
          = (evs1, Except.ok (req1, rep1)) →
      rep1.body = none →
      parseUrl req1.url = some parts →
      findRoute decode w.routes req1.method parts.pathname = some (route, params) →
      runHooks w.preHandlerHooks Ev.preHandlerHook 0
          (formStep parseForm { req1 with params := params, query := parts.query }) rep1
          = (evs2, Except.ok (req3, rep3)) →
      rep3.body = none →
      route.handler req3 rep3 = Except.error e →
      handleRequest parseUrl decode parseForm w id request
          = ((evs1 ++ evs2).map Act.ev ++ [Act.ev Ev.handlerInvoked])
              ++ errorTail w id e req3 rep3
        ∧ sentOf (handleRequest parseUrl decode parseForm w id request)
          = [mkMsg id reply500])
    ∧ (∀ evs1 req1 rep1 parts route params evs2 req3 rep3 rep4 result evs3 e,
      runHooks w.onRequestHooks Ev.onRequestHook 0 request reply0
          = (evs1, Except.ok (req1, rep1)) →
      rep1.body = none →
      parseUrl req1.url = some parts →
      findRoute decode w.routes req1.method parts.pathname = some (route, params) →
      runHooks w.preHandlerHooks Ev.preHandlerHook 0
          (formStep parseForm { req1 with params := params, query := parts.query }) rep1
          = (evs2, Except.ok (req3, rep3)) →
      rep3.body = none →
      route.handler req3 rep3 = Except.ok (rep4, result) →
      runHooks w.onResponseHooks Ev.onResponseHook 0 req3 (applyHandlerResult result rep4)
          = (evs3, Except.error e) →
      handleRequest parseUrl decode parseForm w id request
          = ((evs1 ++ evs2).map Act.ev ++ [Act.ev Ev.handlerInvoked] ++ evs3.map Act.ev)
              ++ errorTail w id e req3 (applyHandlerResult result rep4)
        ∧ sentOf (handleRequest parseUrl decode parseForm w id request)
          = [mkMsg id reply500]) := by
  refine ⟨?_, ?_, ?_, ?_, ?_, ?_, ?_⟩
  · intro e req rep
    have := runErrorHooks_events w.onErrorHooks 0 e req rep
    simpa using this
  · intro evs1 e h1
    have heq : handleRequest parseUrl decode parseForm w id request
        = (evs1.map Act.ev) ++ errorTail w id e request reply0 := by
      unfold handleRequest
      rw [h1]
    refine ⟨heq, ?_⟩
    rw [heq, sentOf_append, sentOf_ev_map, sentOf_errorTail]
    rfl
  · intro evs1 req1 rep1 evs2 e h1 hb h2
    have heq : handleRequest parseUrl decode parseForm w id request
        = ((evs1 ++ evs2).map Act.ev) ++ errorTail w id e req1 rep1 := by
      unfold handleRequest
      rw [h1]
      simp only [hb, if_true, h2]
    refine ⟨heq, ?_⟩
    rw [heq, sentOf_append, sentOf_ev_map, sentOf_errorTail]
    rfl
  · intro evs1 req1 rep1 parts route params evs2 e h1 hb h3 h4 h5
    have heq : handleRequest parseUrl decode parseForm w id request
        = ((evs1 ++ evs2).map Act.ev) ++ errorTail w id e
            (formStep parseForm { req1 with params := params, query := parts.query }) rep1 := by
      unfold handleRequest
      rw [h1]
      simp only [hb, Option.isSome_none, Bool.false_eq_true, if_false, h3, h4, h5]
    refine ⟨heq, ?_⟩
    rw [heq, sentOf_append, sentOf_ev_map, sentOf_errorTail]
    rfl
  · intro evs1 req1 rep1 parts route params evs2 req3 rep3 evs3 e h1 hb h3 h4 h5 hb3 h6
    have heq : handleRequest parseUrl decode parseForm w id request
        = ((evs1 ++ evs2 ++ evs3).map Act.ev) ++ errorTail w id e req3 rep3 := by
      unfold handleRequest
      rw [h1]
      simp only [hb, Option.isSome_none, Bool.false_eq_true, if_false, h3, h4, h5, hb3,
        if_true, h6]
    refine ⟨heq, ?_⟩
    rw [heq, sentOf_append, sentOf_ev_map, sentOf_errorTail]
    rfl
  · intro evs1 req1 rep1 parts route params evs2 req3 rep3 e h1 hb h3 h4 h5 hb3 h7
    have heq : handleRequest parseUrl decode parseForm w id request
        = ((evs1 ++ evs2).map Act.ev ++ [Act.ev Ev.handlerInvoked])
            ++ errorTail w id e req3 rep3 := by
      unfold handleRequest
      rw [h1]
      simp only [hb, Option.isSome_none, Bool.false_eq_true, if_false, h3, h4, h5, hb3, h7]
    refine ⟨heq, ?_⟩
    rw [heq, sentOf_append, sentOf_errorTail]
    rw [sentOf_append, sentOf_ev_map, sentOf_ev_single]
    rfl
  · intro evs1 req1 rep1 parts route params evs2 req3 rep3 rep4 result evs3 e
      h1 hb h3 h4 h5 hb3 h7 h8
    have heq : handleRequest parseUrl decode parseForm w id request
        = ((evs1 ++ evs2).map Act.ev ++ [Act.ev Ev.handlerInvoked] ++ evs3.map Act.ev)
            ++ errorTail w id e req3 (applyHandlerResult result rep4) := by
      unfold handleRequest
      rw [h1]
      simp only [hb, Option.isSome_none, Bool.false_eq_true, if_false, h3, h4, h5, hb3, h7, h8]
    refine ⟨heq, ?_⟩
    rw [heq, sentOf_append, sentOf_errorTail]
    rw [sentOf_append, sentOf_append, sentOf_ev_map, sentOf_ev_single, sentOf_ev_map]
    rfl

theorem handleRequest_error_sends_fixed_500_witness :
    sentOf (handleRequest (fun _ => some ⟨"/boom", []⟩) (fun s => s) (fun _ => none)
        ⟨"c",
          [{ method := some "GET", path := "/boom",
             handler := fun _ _ => Except.error "boom",
             matchMode := some MatchMode.exact }],
          [], [], [],
          [fun _ _ _ => Except.error "onError hook failure",
           fun _ req rep => Except.ok (req, rep)]⟩
        "r1" ⟨"http://a/boom", "GET", [], none, [], []⟩)
      = [mkMsg "r1" reply500]
    ∧ (runErrorHooks
        [fun _ _ _ => Except.error "onError hook failure",
         fun _ req rep => Except.ok (req, rep)] 0 "boom"
        ⟨"http://a/boom", "GET", [], none, [], []⟩ reply0).1
      = [Ev.onErrorHook 0, Ev.onErrorHook 1] := by
  constructor
  · exact ((handleRequest_error_sends_fixed_500 (fun _ => some ⟨"/boom", []⟩) (fun s => s)
      (fun _ => none)
      ⟨"c",
        [{ method := some "GET", path := "/boom",
           handler := fun _ _ => Except.error "boom",
           matchMode := some MatchMode.exact }],
        [], [], [],
        [fun _ _ _ => Except.error "onError hook failure",
         fun _ req rep => Except.ok (req, rep)]⟩
      "r1" ⟨"http://a/boom", "GET", [], none, [], []⟩).2.2.2.2.2.1
      _ _ _ _ _ _ _ _ _ _ rfl rfl rfl rfl rfl rfl rfl).2
  · have := (handleRequest_error_sends_fixed_500 (fun _ => some ⟨"/boom", []⟩) (fun s => s)
      (fun _ => none)
      ⟨"c",
        [{ method := some "GET", path := "/boom",
           handler := fun _ _ => Except.error "boom",
           matchMode := some MatchMode.exact }],
        [], [], [],
        [fun _ _ _ => Except.error "onError hook failure",
         fun _ req rep => Except.ok (req, rep)]⟩
      "r1" ⟨"http://a/boom", "GET", [], none, [], []⟩).1 "boom"
      ⟨"http://a/boom", "GET", [], none, [], []⟩ reply0
    rw [this]
    rfl

theorem handleRequest_one_response
    (parseUrl : String → Option UrlParts) (decode : String → String)
    (parseForm : List Nat → Option (List (String × String)))
    (w : Workerify) (id : String) (request : WorkerifyRequest) :
    ∃ m, sentOf (handleRequest parseUrl decode parseForm w id request) = [m]
      ∧ m.type = "workerify:response" ∧ m.id = some id := by
  unfold handleRequest
  repeat' split
  all_goals
    exact ⟨_, by
      simp only [errorTail, sentOf_cons_ev, sentOf_append, sentOf_ev_map, sentOf_send,
        List.nil_append, List.append_assoc]
      try rfl, rfl, rfl⟩

/-- C10: the instance posts a response only in reaction to a
`workerify:handle` message with a truthy id, a request, and its own
consumer identity (any other message produces no trace at all, hence no
posted message), and each accepted message yields exactly one posted
`workerify:response` message carrying the same correlation id — on every
control path of the dispatch (early response, not found, handler success,
and error). -/
theorem handleMessage_single_response
    (parseUrl : String → Option UrlParts) (decode : String → String)
    (parseForm : List Nat → Option (List (String × String)))
    (w : Workerify) :
    (∀ (msg : BroadcastMessage) (i : String) (req : WorkerifyRequest),
      msg.id = some i → msg.request = some req →
      msg.type = "workerify:handle" → i ≠ "" → msg.consumerId = some w.consumerId →
      ∃ m, sentOf (handleMessage parseUrl decode parseForm w msg) = [m]
        ∧ m.type = "workerify:response" ∧ m.id = some i)
    ∧ (∀ msg : BroadcastMessage,
      ¬ (msg.type = "workerify:handle"
          ∧ (∃ i, msg.id = some i ∧ i ≠ "")
          ∧ msg.request.isSome = true
          ∧ msg.consumerId = some w.consumerId) →
      handleMessage parseUrl decode parseForm w msg = []) := by
  constructor
  · intro msg i req hid hreq htype hi hcons
    have heq : handleMessage parseUrl decode parseForm w msg
        = handleRequest parseUrl decode parseForm w i req := by
      unfold handleMessage
      rw [hid, hreq]
      have hcond : (msg.type == "workerify:handle" && i != ""
          && (msg.consumerId == some w.consumerId)) = true := by
        simp [htype, hi, hcons]
      simp [hcond]
    rw [heq]
    exact handleRequest_one_response parseUrl decode parseForm w i req
  · intro msg hn
    unfold handleMessage
    cases hid : msg.id with
    | none => rfl
    | some i =>
      cases hreq : msg.request with
      | none => rfl
      | some req =>
        have hcond : (msg.type == "workerify:handle" && i != ""
            && (msg.consumerId == some w.consumerId)) = false := by
          by_cases htype : msg.type = "workerify:handle"
          · by_cases hi : i = ""
            · simp [hi]
            · by_cases hcons : msg.consumerId = some w.consumerId
              · exact absurd ⟨htype, ⟨i, hid, hi⟩, by simp [hreq], hcons⟩ hn
              · simp [hcons]
          · simp [htype]
        simp [hcond]

theorem handleMessage_single_response_witness :
    (∃ m, sentOf (handleMessage (fun _ => some ⟨"/a", []⟩) (fun s => s) (fun _ => none)
        ⟨"c9", [], [], [], [], []⟩
        { type := "workerify:handle", id := some "id7", consumerId := some "c9",
          request := some ⟨"http://a/a", "GET", [], none, [], []⟩,
          status := none, statusText := none, headers := none,
          body := none, bodyType := none }) = [m]
      ∧ m.type = "workerify:response" ∧ m.id = some "id7")
    ∧ handleMessage (fun _ => some ⟨"/a", []⟩) (fun s => s) (fun _ => none)
        ⟨"c9", [], [], [], [], []⟩
        { type := "workerify:handle", id := some "id7", consumerId := some "other",
          request := some ⟨"http://a/a", "GET", [], none, [], []⟩,
          status := none, statusText := none, headers := none,
          body := none, bodyType := none } = [] := by
  constructor
  · exact (handleMessage_single_response (fun _ => some ⟨"/a", []⟩) (fun s => s) (fun _ => none)
      ⟨"c9", [], [], [], [], []⟩).1 _ "id7" ⟨"http://a/a", "GET", [], none, [], []⟩
      rfl rfl rfl (by decide) rfl
  · exact (handleMessage_single_response (fun _ => some ⟨"/a", []⟩) (fun s => s) (fun _ => none)
      ⟨"c9", [], [], [], [], []⟩).2 _ (by
        rintro ⟨-, -, -, hcons⟩
        simp at hcons)

/-
  Consumer Session path composition (C7/C8).

  The provided sources ship the `scope` option in `WorkerifyOptions`, the
  plugin registration tests (scope normalization, plugin path prefixing,
  nested prefixes, cleanup on plugin failure) and the README documentation
  of the feature, but not the implementation itself: `part_000`'s
  constructor/addRoute/register predate it.  The composition is therefore
  modelled from the spec (§4.4); `processPath` above is from the source.
-/

/-- Modelled from the spec: normalization of one scope / plugin-path-prefix
component — "leading/trailing slash collapsing" so that "exactly one `/`
separates segments".  A missing leading slash is added, a trailing slash is
dropped; the root prefix `/` (and the empty scope) normalize to the empty
prefix.  Pinned by the scope-normalization tests
(`api`, `/api`, `/api/` → `/api`; `/` → no prefix). -/
def normalizePart (s : String) : String :=
  if strEndsWith (if strStartsWith s "/" then s else "/" ++ s) "/" then
    strDropRight (if strStartsWith s "/" then s else "/" ++ s) 1
  else
    (if strStartsWith s "/" then s else "/" ++ s)

/-- Modelled from the spec: the effective registered path — "concatenation
of global scope + all currently-active pushed prefixes + the path argument,
normalized so exactly one `/` separates segments". -/
def fullPath (scope : String) (prefixes : List String) (p : String) : String :=
  normalizePart scope ++ String.join (prefixes.map normalizePart)
    ++ (if strStartsWith p "/" then p else "/" ++ p)

/-- A registered route as pushed to the table (handler omitted: the path
composition does not involve it). -/
structure RouteSpec where
  method : Option HttpMethod
  path : String
  matchMode : MatchMode
deriving DecidableEq, Repr

/-- Modelled from the spec: the Consumer Session registration state — the
global `scope` option, the stack of active plugin path prefixes, and the
append-only route table. -/
structure SessionState where
  scope : String
  prefixes : List String
  routes : List RouteSpec
deriving DecidableEq, Repr

/-- Modelled from the spec: a registration shorthand (`get`/`post`/…):
`processPath` (from the source) rewrites a trailing `/*` to prefix mode,
then the effective path is composed and the route appended. -/
def addRouteS (s : SessionState) (method : Option HttpMethod) (path : String) :
    SessionState :=
  { s with routes := s.routes ++
      [{ method := method,
         path := fullPath s.scope s.prefixes (processPath path).1,
         matchMode := (processPath path).2 }] }

/-- The registration calls a plugin body can make: a route shorthand, a
nested `register(plugin, {path})` (path optional), or a throw. -/
inductive PluginCmd where
  | route (method : Option HttpMethod) (path : String)
  | sub (path : Option String) (cmds : List PluginCmd)
  | fail (message : String)

mutual

/-- Modelled from the spec: executing one registration call against the
session state.  `register(plugin, {path})` pushes the prefix, runs the
plugin body, and pops the prefix on completion *including when the plugin
throws* (try/finally); a plugin error is propagated (second component). -/
def runCmd : SessionState → PluginCmd → SessionState × Option String
  | s, PluginCmd.route m p => (addRouteS s m p, none)
  | s, PluginCmd.fail msg => (s, some msg)
  | s, PluginCmd.sub none cmds => runCmds s cmds
  | s, PluginCmd.sub (some p) cmds =>
    ({ (runCmds { s with prefixes := s.prefixes ++ [p] } cmds).1 with
        prefixes := (runCmds { s with prefixes := s.prefixes ++ [p] } cmds).1.prefixes.dropLast },
     (runCmds { s with prefixes := s.prefixes ++ [p] } cmds).2)

/-- Modelled from the spec: a plugin body runs its calls in order and stops
at the first throw (the state reached so far, routes included, persists). -/
def runCmds : SessionState → List PluginCmd → SessionState × Option String
  | s, [] => (s, none)
  | s, c :: cs =>
    match runCmd s c with
    | (s', none) => runCmds s' cs
    | (s', some e) => (s', some e)

end

mutual

theorem runCmd_prefixes : ∀ (c : PluginCmd) (s : SessionState),
    ((runCmd s c).1).prefixes = s.prefixes
  | PluginCmd.route m p, s => rfl
  | PluginCmd.fail msg, s => rfl
  | PluginCmd.sub none cmds, s => runCmds_prefixes cmds s
  | PluginCmd.sub (some p) cmds, s => by
    unfold runCmd
    have h := runCmds_prefixes cmds { s with prefixes := s.prefixes ++ [p] }
    simp only [h]
    exact List.dropLast_concat

theorem runCmds_prefixes : ∀ (cmds : List PluginCmd) (s : SessionState),
    ((runCmds s cmds).1).prefixes = s.prefixes
  | [], s => rfl
  | c :: cs, s => by
    unfold runCmds
    have h1 := runCmd_prefixes c s
    cases hc : runCmd s c with
    | mk s' eopt =>
      rw [hc] at h1
      cases eopt with
      | none =>
        have h2 := runCmds_prefixes cs s'
        simp only [h2]
        simpa using h1
      | some e =>
        simpa using h1

end

theorem strEndsWith_slashStar (p : String) (h : strEndsWith p "/*" = true) :
    ∃ l : List Char, p.data = l ++ ['/', '*'] := by
  unfold strEndsWith at h
  have hd : ("/*" : String).data = ['/', '*'] := rfl
  rw [hd] at h
  rcases List.isSuffixOf_iff_suffix.mp h with ⟨t, ht⟩
  exact ⟨t, ht.symm⟩

theorem dropRight_slashStar (l : List Char) :
    strDropRight (String.mk (l ++ ['/', '*'])) 1 = String.mk (l ++ ['/']) := by
  unfold strDropRight
  congr 1
  have hlen : (l ++ ['/', '*']).length - 1 = l.length + 1 := by
    simp
  rw [hlen, List.take_append_eq_append_take]
  congr 1
  · exact List.take_of_length_le (by omega)
  · have : l.length + 1 - l.length = 1 := by omega
    rw [this]
    rfl

/-- C7: for every registration, the stored path is the concatenation of the
normalized global scope, all currently active (normalized) plugin path
prefixes, and the path argument (given a leading slash when missing), with
`processPath` (from the source) first rewriting a path argument ending in
`/*` to the path with the `*` dropped — keeping the trailing `/` — in
prefix match mode, and leaving any other argument in exact mode.  The
normalization facts and the concrete compositions are the ones pinned by
the repository's scope/plugin-path tests. -/
theorem registration_path_composition :
    (∀ p : String, strEndsWith p "/*" = true →
      processPath p = (strDropRight p 1, MatchMode.pfx)
      ∧ strEndsWith (strDropRight p 1) "/" = true)
    ∧ (∀ p : String, strEndsWith p "/*" = false →
      processPath p = (p, MatchMode.exact))
    ∧ (∀ (s : SessionState) (m : Option HttpMethod) (p : String),
      (addRouteS s m p).routes = s.routes ++
        [{ method := m,
           path := fullPath s.scope s.prefixes (processPath p).1,
           matchMode := (processPath p).2 }])
    ∧ (normalizePart "" = "" ∧ normalizePart "/" = ""
       ∧ normalizePart "api" = "/api" ∧ normalizePart "/api" = "/api"
       ∧ normalizePart "/api/" = "/api")
    ∧ ((addRouteS (⟨"/api/v1", ["/users", "/admin", "/settings"], []⟩ : SessionState)
            (some "GET") "/profile").routes
        = [(⟨some "GET", "/api/v1/users/admin/settings/profile", MatchMode.exact⟩ : RouteSpec)]
       ∧ (addRouteS (⟨"", ["/assets"], []⟩ : SessionState) (some "GET") "/*").routes
        = [(⟨some "GET", "/assets/", MatchMode.pfx⟩ : RouteSpec)]
       ∧ (addRouteS (⟨"/api/", [], []⟩ : SessionState) (some "GET") "/route").routes
        = [(⟨some "GET", "/api/route", MatchMode.exact⟩ : RouteSpec)]
       ∧ (addRouteS (⟨"", ["/items"], []⟩ : SessionState) (some "GET") "/").routes
        = [(⟨some "GET", "/items/", MatchMode.exact⟩ : RouteSpec)]) := by
  refine ⟨?_, ?_, ?_, ?_, ?_⟩
  · intro p h
    constructor
    · unfold processPath
      rw [if_pos h]
    · rcases strEndsWith_slashStar p h with ⟨l, hl⟩
      have hp : p = String.mk (l ++ ['/', '*']) := by
        cases p with
        | mk d =>
          have hd : d = l ++ ['/', '*'] := by simpa using hl
          rw [hd]
      rw [hp, dropRight_slashStar]
      unfold strEndsWith
      have hd : ("/" : String).data = ['/'] := rfl
      rw [hd]
      exact List.isSuffixOf_iff_suffix.mpr ⟨l, rfl⟩
  · intro p h
    unfold processPath
    rw [if_neg (by simp [h])]
  · intro s m p
    rfl
  · exact ⟨rfl, rfl, rfl, rfl, rfl⟩
  · exact ⟨rfl, rfl, rfl, rfl⟩

theorem registration_path_composition_witness :
    processPath "/api/*" = ("/api/", MatchMode.pfx)
    ∧ strEndsWith "/api/" "/" = true
    ∧ processPath "/api/users" = ("/api/users", MatchMode.exact) := by
  have h1 := registration_path_composition.1 "/api/*" (by decide)
  have h2 := registration_path_composition.2.1 "/api/users" (by decide)
  exact ⟨h1.1, h1.2, h2⟩

/-- C8: `register(plugin, {path})` pops the pushed prefix on every exit
path: the prefix stack after the call equals its pre-call state even when
the plugin throws; the plugin's error is propagated to the caller; and in
the test-pinned scenario a failing plugin leaves the next registration
unprefixed by the failed plugin's path. -/
theorem register_prefix_stack_cleanup :
    (∀ (s : SessionState) (p : String) (cmds : List PluginCmd),
      ((runCmd s (PluginCmd.sub (some p) cmds)).1).prefixes = s.prefixes)
    ∧ (∀ (s : SessionState) (p : String) (cmds : List PluginCmd) (e : String),
      (runCmds { s with prefixes := s.prefixes ++ [p] } cmds).2 = some e →
      (runCmd s (PluginCmd.sub (some p) cmds)).2 = some e)
    ∧ ((runCmd (⟨"", [], []⟩ : SessionState)
          (PluginCmd.sub (some "/failing") [PluginCmd.fail "Plugin failed"])).2
        = some "Plugin failed"
       ∧ (runCmd (runCmd (⟨"", [], []⟩ : SessionState)
            (PluginCmd.sub (some "/failing") [PluginCmd.fail "Plugin failed"])).1
            (PluginCmd.sub (some "/working") [PluginCmd.route (some "GET") "/success"])).1
        = (⟨"", [], [⟨some "GET", "/working/success", MatchMode.exact⟩]⟩ : SessionState)) := by
  refine ⟨?_, ?_, rfl, rfl⟩
  · intro s p cmds
    exact runCmd_prefixes (PluginCmd.sub (some p) cmds) s
  · intro s p cmds e h
    unfold runCmd
    simpa using h

theorem register_prefix_stack_cleanup_witness :
    ((runCmd (⟨"", ["/outer"], []⟩ : SessionState)
        (PluginCmd.sub (some "/failing") [PluginCmd.fail "boom"])).1).prefixes = ["/outer"]
    ∧ (runCmd (⟨"", ["/outer"], []⟩ : SessionState)
        (PluginCmd.sub (some "/failing") [PluginCmd.fail "boom"])).2 = some "boom" := by
  constructor
  · exact register_prefix_stack_cleanup.1
      (⟨"", ["/outer"], []⟩ : SessionState) "/failing" [PluginCmd.fail "boom"]
  · exact register_prefix_stack_cleanup.2.1
      (⟨"", ["/outer"], []⟩ : SessionState) "/failing" [PluginCmd.fail "boom"] "boom" rfl

/-
  Interception Point liveness sweep (C9):
  `cleanupClosedClients` of workerify-sw-copilot.ts (lines 38-79).

  The two registry maps are assoc lists in insertion order (JS `Map`);
  `activeClientIds` is the set of tab identities the hosting context still
  enumerates (`clients.matchAll`).  The sweep walks `clientConsumerMap`,
  collects stale client ids into `toRemove` (deleted from the map only
  after the walk), and deletes a stale entry's consumer snapshot unless
  more than one entry of the *pre-sweep* map carries that consumer id.
-/

/-- One iteration of the `clientConsumerMap.forEach` body: the accumulator
is (toRemove so far, consumerRoutesMap so far). -/
def cleanupStep {α : Type} (activeClientIds : List String)
    (clientConsumerMap : List (String × String))
    (acc : List String × List (String × α)) (e : String × String) :
    List String × List (String × α) :=
  if e.1 ∈ activeClientIds then acc
  else
    (acc.1 ++ [e.1],
     if 1 < ((clientConsumerMap.map Prod.snd).filter (fun cid => cid == e.2)).length
     then acc.2
     else acc.2.filter (fun kv => decide (kv.1 ≠ e.2)))

/-- `cleanupClosedClients`: the client map afterward (stale ids removed)
and the consumer-routes map afterward. -/
def cleanupClosedClients {α : Type} (activeClientIds : List String)
    (clientConsumerMap : List (String × String))
    (consumerRoutesMap : List (String × α)) :
    List (String × String) × List (String × α) :=
  (clientConsumerMap.filter (fun e =>
      decide (e.1 ∉ (clientConsumerMap.foldl
        (cleanupStep activeClientIds clientConsumerMap)
        ([], consumerRoutesMap)).1)),
   (clientConsumerMap.foldl (cleanupStep activeClientIds clientConsumerMap)
      ([], consumerRoutesMap)).2)

theorem cleanupFold_routes_subset {α : Type} (act : List String)
    (ccm : List (String × String)) :
    ∀ (l : List (String × String)) (acc : List String × List (String × α))
      (kv : String × α),
      kv ∈ (l.foldl (cleanupStep act ccm) acc).2 → kv ∈ acc.2
  | [], acc, kv => fun h => h
  | e :: l, acc, kv => by
    intro h
    have h2 := cleanupFold_routes_subset act ccm l (cleanupStep act ccm acc e) kv h
    unfold cleanupStep at h2
    by_cases hact : e.1 ∈ act
    · rw [if_pos hact] at h2
      exact h2
    · rw [if_neg hact] at h2
      by_cases hcnt : 1 < ((ccm.map Prod.snd).filter (fun cid => cid == e.2)).length
      · rw [if_pos hcnt] at h2
        exact h2
      · rw [if_neg hcnt] at h2
        exact (List.mem_filter.mp h2).1

theorem cleanupFold_routes_preserved {α : Type} (act : List String)
    (ccm : List (String × String)) (X : String) :
    ∀ (l : List (String × String)) (acc : List String × List (String × α))
      (rs : α),
      (X, rs) ∈ acc.2 →
      (∀ e ∈ l, e.1 ∉ act → e.2 = X →
        1 < ((ccm.map Prod.snd).filter (fun cid => cid == X)).length) →
      (X, rs) ∈ (l.foldl (cleanupStep act ccm) acc).2
  | [], acc, rs => fun h _ => h
  | e :: l, acc, rs => by
    intro hmem hcond
    have hnext : (X, rs) ∈ (cleanupStep act ccm acc e).2 := by
      unfold cleanupStep
      by_cases hact : e.1 ∈ act
      · rw [if_pos hact]
        exact hmem
      · rw [if_neg hact]
        by_cases hX : e.2 = X
        · have hcnt := hcond e (List.mem_cons_self e l) hact hX
          rw [hX] at *
          rw [if_pos hcnt]
          exact hmem
        · by_cases hcnt : 1 < ((ccm.map Prod.snd).filter (fun cid => cid == e.2)).length
          · rw [if_pos hcnt]
            exact hmem
          · rw [if_neg hcnt]
            refine List.mem_filter.mpr ⟨hmem, ?_⟩
            simp only [decide_eq_true_eq]
            intro hcon
            exact hX hcon.symm
    exact cleanupFold_routes_preserved act ccm X l (cleanupStep act ccm acc e) rs hnext
      (fun f hf => hcond f (List.mem_cons_of_mem e hf))

theorem cleanupFold_toRemove_mono {α : Type} (act : List String)
    (ccm : List (String × String)) :
    ∀ (l : List (String × String)) (acc : List String × List (String × α))
      (c : String), c ∈ acc.1 → c ∈ (l.foldl (cleanupStep act ccm) acc).1
  | [], acc, c => fun h => h
  | e :: l, acc, c => by
    intro h
    refine cleanupFold_toRemove_mono act ccm l (cleanupStep act ccm acc e) c ?_
    unfold cleanupStep
    by_cases hact : e.1 ∈ act
    · rw [if_pos hact]
      exact h
    · rw [if_neg hact]
      exact List.mem_append.mpr (Or.inl h)

theorem cleanupFold_stale_in_toRemove {α : Type} (act : List String)
    (ccm : List (String × String)) :
    ∀ (l : List (String × String)) (acc : List String × List (String × α))
      (e : String × String), e ∈ l → e.1 ∉ act →
      e.1 ∈ (l.foldl (cleanupStep act ccm) acc).1
  | [], acc, e => by intro h; simp at h
  | f :: l, acc, e => by
    intro hmem hact
    rcases List.mem_cons.mp hmem with heq | htail
    · subst heq
      refine cleanupFold_toRemove_mono act ccm l (cleanupStep act ccm acc e) e.1 ?_
      unfold cleanupStep
      rw [if_neg hact]
      exact List.mem_append.mpr (Or.inr (by simp))
    · exact cleanupFold_stale_in_toRemove act ccm l (cleanupStep act ccm acc f) e htail hact

theorem filter_map_snd_length (l : List (String × String)) (X : String) :
    ((l.map Prod.snd).filter (fun cid => cid == X)).length
      = l.countP (fun p => p.2 == X) := by
  induction l with
  | nil => rfl
  | cons p t ih =>
    by_cases h : p.2 == X <;>
      simp [List.countP_cons, h, ih]

theorem two_mem_le_countP {β : Type} (l : List β) (p : β → Bool) (a b : β)
    (ha : a ∈ l) (hb : b ∈ l) (hne : a ≠ b)
    (hpa : p a = true) (hpb : p b = true) :
    2 ≤ l.countP p := by
  obtain ⟨u, v, rfl⟩ := List.append_of_mem ha
  have hbu : b ∈ u ∨ b ∈ v := by
    rcases List.mem_append.mp hb with h | h
    · exact Or.inl h
    · rcases List.mem_cons.mp h with h | h
      · exact absurd h.symm hne
      · exact Or.inr h
  have h1 : 0 < List.countP p u ∨ 0 < List.countP p v := by
    rcases hbu with h | h
    · exact Or.inl (List.countP_pos_iff.mpr ⟨b, h, hpb⟩)
    · exact Or.inr (List.countP_pos_iff.mpr ⟨b, h, hpb⟩)
  rw [List.countP_append, List.countP_cons, hpa]
  have hone : (if (true = true) then 1 else 0) = 1 := if_pos rfl
  rw [hone]
  omega

/-- C9 counterexample: two stale tabs `c1`, `c2` both map to consumer `X`
and are reaped in the same sweep (no tab is live).  Afterwards no tab maps
to `X`, yet `X`'s route snapshot is still in the registry — the sweep
computed `hasOtherClients` against the pre-sweep map, where each stale tab
saw the other.  This refutes "once every tab mapping to a consumer has been
reaped as stale, that consumer's route snapshot is removed". -/
theorem cleanup_orphan_counterexample :
    (cleanupClosedClients ([] : List String) [("c1", "X"), ("c2", "X")]
        [("X", (["r"] : List String))]).1 = []
    ∧ (cleanupClosedClients ([] : List String) [("c1", "X"), ("c2", "X")]
        [("X", (["r"] : List String))]).2 = [("X", ["r"])] :=
  ⟨rfl, rfl⟩

/-- C9 amended: (1) a consumer's route snapshot is removed only when no
remaining tab identity maps to that consumer — a surviving (live) mapping
entry keeps the snapshot alive; (2) when exactly one tab maps to the
consumer and it is reaped as stale, the snapshot is removed; (3) when two
or more tabs of the pre-sweep map carry the consumer id, the snapshot is
retained by this sweep even if all of them are reaped (the orphan case of
the counterexample). -/
theorem cleanup_snapshot_removal {α : Type} (act : List String) :
    (∀ (ccm : List (String × String)) (crm : List (String × α)) (X : String)
       (rs : α) (e : String × String),
      e ∈ (cleanupClosedClients act ccm crm).1 → e.2 = X → (X, rs) ∈ crm →
      (X, rs) ∈ (cleanupClosedClients act ccm crm).2)
    ∧ (∀ (l1 l2 : List (String × String)) (e0 : String × String)
        (crm : List (String × α)) (X : String),
      e0.2 = X → e0.1 ∉ act →
      (∀ f ∈ l1, f.2 ≠ X) → (∀ f ∈ l2, f.2 ≠ X) →
      ∀ rs : α, (X, rs) ∉ (cleanupClosedClients act (l1 ++ e0 :: l2) crm).2)
    ∧ (∀ (ccm : List (String × String)) (crm : List (String × α))
        (X : String) (rs : α),
      2 ≤ ccm.countP (fun p => p.2 == X) → (X, rs) ∈ crm →
      (X, rs) ∈ (cleanupClosedClients act ccm crm).2) := by
  refine ⟨?_, ?_, ?_⟩
  · intro ccm crm X rs e he heX hcrm
    unfold cleanupClosedClients at he ⊢
    have hf := List.mem_filter.mp he
    have hccm : e ∈ ccm := hf.1
    have hnotrm : e.1 ∉ (ccm.foldl (cleanupStep act ccm) ([], crm)).1 := by
      have := hf.2
      simpa using this
    have hact : e.1 ∈ act := by
      by_contra hnot
      exact hnotrm (cleanupFold_stale_in_toRemove act ccm ccm ([], crm) e hccm hnot)
    apply cleanupFold_routes_preserved act ccm X ccm ([], crm) rs hcrm
    intro f hfm hfstale hfX
    rw [filter_map_snd_length]
    have hne : e ≠ f := by
      intro heq
      rw [← heq] at hfstale
      exact hfstale hact
    have h2 := two_mem_le_countP ccm (fun p => p.2 == X) e f hccm hfm hne
      (by simp [heX]) (by simp [hfX])
    omega
  · intro l1 l2 e0 crm X hX hstale h1 h2 rs hmem
    unfold cleanupClosedClients at hmem
    rw [List.foldl_append] at hmem
    simp only [List.foldl_cons] at hmem
    have hsub := cleanupFold_routes_subset act (l1 ++ e0 :: l2) l2 _ _ hmem
    unfold cleanupStep at hsub
    rw [if_neg hstale] at hsub
    have hcnt : ¬ 1 < (((l1 ++ e0 :: l2).map Prod.snd).filter
        (fun cid => cid == e0.2)).length := by
      rw [hX, filter_map_snd_length]
      have c1 : l1.countP (fun p => p.2 == X) = 0 :=
        List.countP_eq_zero.mpr (fun f hf => by simp [h1 f hf])
      have c2 : l2.countP (fun p => p.2 == X) = 0 :=
        List.countP_eq_zero.mpr (fun f hf => by simp [h2 f hf])
      rw [List.countP_append, List.countP_cons, c1, c2]
      simp [hX]
    rw [if_neg hcnt] at hsub
    have hbad := (List.mem_filter.mp hsub).2
    rw [hX] at hbad
    simp at hbad
  · intro ccm crm X rs hcnt hcrm
    unfold cleanupClosedClients
    apply cleanupFold_routes_preserved act ccm X ccm ([], crm) rs hcrm
    intro f hfm hfs hfX
    rw [filter_map_snd_length]
    omega

theorem cleanup_snapshot_removal_witness :
    ("X", (["r"] : List String)) ∉ (cleanupClosedClients ([] : List String)
        [("c1", "X")] [("X", ["r"])]).2
    ∧ ("X", (["r"] : List String)) ∈ (cleanupClosedClients ["c1"]
        [("c1", "X")] [("X", ["r"])]).2 := by
  constructor
  · exact (cleanup_snapshot_removal ([] : List String)).2.1 [] [] ("c1", "X")
      [("X", ["r"])] "X" rfl (by simp) (by simp) (by simp) ["r"]
  · exact (cleanup_snapshot_removal ["c1"]).1 [("c1", "X")] [("X", ["r"])] "X" ["r"]
      ("c1", "X") (by decide) rfl (by simp)
